import Mathlib

/-!
# Verification of the diagnostic-reconciliation core of the inco VSCode extension

This file gives a shallow embedding of the diagnostic reconciler found in the
extension's commands module (`parseGoErrors`, `mapShadowLineToSource`,
`snapToDirectiveLine`, `buildReverseOverlay`, `findGoModDir`) and of
`loadOverlay` from the preview module, and proves properties of that embedding.

Modelling conventions:
* File-system reads (`fs.readFileSync`, `fs.existsSync`, `fs.readdirSync`)
  become lookups in an explicit `FS` snapshot.  A read that would throw is a
  `none` lookup.
* The module-global `_directiveLineCache` becomes explicit state threaded
  through `snapToDirectiveLine`/`processEntry` as an association list.
* JavaScript regular expressions are translated to character-level functions
  with the same matching semantics on the inputs they are applied to
  (single lines, i.e. strings not containing a newline character).
  The JS `\s` class is modelled by its ASCII members; exotic Unicode
  whitespace is not modelled.
* `path.join`/`path.resolve` are modelled as separator concatenation;
  `..`/`.` normalization is not modelled (the reconciler never relies on it).
* JS numbers are modelled as `Nat`/`Int`; `parseInt` on a digit run is exact
  conversion (float rounding above 2^53 is not modelled).
-/

namespace Inco

/-- ASCII members of the JS regex `\s` character class. -/
def isWS (c : Char) : Bool :=
  c = ' ' || c = '\t' || c = '\n' || c = '\r' || c = '\x0b' || c = '\x0c'

/-- ASCII decimal digit. -/
def isDigitCh (c : Char) : Bool :=
  '0' ≤ c && c ≤ '9'

/-- Value of a run of decimal digits (JS `parseInt(digits, 10)`). -/
def digitsToNat (ds : List Char) : Nat :=
  ds.foldl (fun a c => a * 10 + (c.toNat - 48)) 0

/-- `content.split("\n")`: split on every newline, keeping empty segments. -/
def splitAux : List Char → List Char → List String
  | [], acc => [String.mk acc.reverse]
  | c :: cs, acc =>
    if c = '\n' then String.mk acc.reverse :: splitAux cs []
    else splitAux cs (c :: acc)

/-- JS `content.split("\n")`. -/
def splitLines (s : String) : List String :=
  splitAux s.data []

/-- JS `s.startsWith(pre)`. -/
def strStartsWith (s pre : String) : Bool :=
  pre.data.isPrefixOf s.data

/-- JS `s.endsWith(suf)`. -/
def strEndsWith (s suf : String) : Bool :=
  suf.data.isSuffixOf s.data

/-- Drop trailing JS whitespace (for matching a trailing `\s*$`). -/
def dropTrailingWS (l : List Char) : List Char :=
  (l.reverse.dropWhile isWS).reverse

/-- Association-list lookup, the model of JS `Map.get`/`Map.has` and of
`Record` property access by string key. -/
def lookupA {β : Type} : List (String × β) → String → Option β
  | [], _ => none
  | e :: rest, k => if e.1 = k then some e.2 else lookupA rest k

/-- Association-list update, the model of JS `Map.set`: replace the value in
place when the key is present, append otherwise. -/
def setA {β : Type} : List (String × β) → String → β → List (String × β)
  | [], k, v => [(k, v)]
  | e :: rest, k, v =>
    if e.1 = k then (k, v) :: rest else e :: setA rest k v

/-- A directory entry as returned by `fs.readdirSync(dir, {withFileTypes: true})`. -/
structure DirEnt where
  name : String
  isDir : Bool
deriving DecidableEq, Repr

/-- A snapshot of the file system visible to one reconciliation batch. -/
structure FS where
  files : List (String × String)
  dirs : List (String × List DirEnt)
deriving Repr

/-- `fs.readFileSync(p, "utf-8")`; `none` models a throwing read. -/
def FS.read (fs : FS) (p : String) : Option String :=
  lookupA fs.files p

/-- `fs.readdirSync(p, {withFileTypes: true})`; `none` models a throw. -/
def FS.readdir (fs : FS) (p : String) : Option (List DirEnt) :=
  lookupA fs.dirs p

/-- `fs.existsSync(p)`. -/
def FS.existsPath (fs : FS) (p : String) : Bool :=
  (fs.read p).isSome || (fs.readdir p).isSome

/-- `path.join(a, b)` (no normalization, see module header). -/
def pjoin (a b : String) : String :=
  a ++ "/" ++ b

/-- `path.isAbsolute` on POSIX paths. -/
def isAbsolutePath (s : String) : Bool :=
  strStartsWith s "/"

/-- `path.resolve(base, raw)` as used by `parseGoErrors` (the absolute branch
is taken by the caller before resolving). -/
def resolveAbs (base raw : String) : String :=
  if isAbsolutePath raw then raw else pjoin base raw

/--
`findGoModDir(dir)`: the directory containing `go.mod`, looking first at
`dir` itself and then at its immediate subdirectories in listing order.
-/
def findGoModDir (fs : FS) (dir : String) : Option String :=
  if fs.existsPath (pjoin dir "go.mod") then some dir
  else
    match fs.readdir dir with
    | none => none
    | some entries =>
      (entries.find? (fun e =>
        e.isDir && fs.existsPath (pjoin (pjoin dir e.name) "go.mod"))).map
        (fun e => pjoin dir e.name)

/-!
## Positional-marker scanner (`mapShadowLineToSource`)

The shadow file's marker lines obey the JS regex
`/^\s*\/\/line\s+.+:(\d+)\s*$/`.  `matchLineDirective` implements that regex
on a single line (no newline characters): the captured group is the digit run
after the last colon that is followed only by digits and trailing whitespace,
and the part between the mandatory whitespace after `//line` and that colon
must be non-empty.
-/

/-- Match one line against `^\s*\/\/line\s+.+:(\d+)\s*$`, returning the
captured 1-based line number. -/
def matchLineDirective (s : String) : Option Nat :=
  let t := s.data.dropWhile isWS
  if t.take 6 = ['/', '/', 'l', 'i', 'n', 'e'] then
    match t.drop 6 with
    | [] => none
    | c :: rest =>
      if isWS c then
        let core := dropTrailingWS (c :: rest)
        let revCore := core.reverse
        let digs := revCore.takeWhile isDigitCh
        if digs.isEmpty then none
        else
          match revCore.drop digs.length with
          | ':' :: restRev =>
            -- `\s+` needs one whitespace char and `.+` one further char
            -- before the colon.
            if 2 ≤ restRev.length then some (digitsToNat digs.reverse)
            else none
          | _ => none
      else none
  else none

/--
The backward scan of `mapShadowLineToSource`: from physical line `i` down to
0, find the nearest `//line` marker and apply
`declaredLine0 + (shadowLine - i - 1)`.
-/
def scanBackMarker (lines : List String) (shadowLine : Nat) : Nat → Int
  | 0 =>
    match matchLineDirective (lines.getD 0 "") with
    | some n => ((n : Int) - 1) + ((shadowLine : Int) - 0 - 1)
    | none => -1
  | i + 1 =>
    match matchLineDirective (lines.getD (i + 1) "") with
    | some n => ((n : Int) - 1) + ((shadowLine : Int) - ((i : Int) + 1) - 1)
    | none => scanBackMarker lines shadowLine i

/-- `mapShadowLineToSource` on the shadow file's text (the reported line may
be negative because the caller subtracts 1 from the raw 1-based line). -/
def mapShadowContent (content : String) (shadowLine : Int) : Int :=
  if shadowLine < 0 then -1
  else scanBackMarker (splitLines content) shadowLine.toNat shadowLine.toNat

/-- `mapShadowLineToSource(shadowPath, shadowLine)`; a failing read yields the
NotFound sentinel `-1`. -/
def mapShadowLineToSource (fs : FS) (shadowPath : String) (shadowLine : Int) : Int :=
  match fs.read shadowPath with
  | none => -1
  | some content => mapShadowContent content shadowLine

/-!
## Directive-anchor index (`snapToDirectiveLine`)
-/

/-- Does the JS regex `\/\/\s*@inco:\s+` match starting at the head of `l`? -/
def incoDirAt : List Char → Bool
  | '/' :: '/' :: rest =>
    let r := rest.dropWhile isWS
    if r.take 6 = ['@', 'i', 'n', 'c', 'o', ':'] then
      match r.drop 6 with
      | c :: _ => isWS c
      | [] => false
    else false
  | _ => false

/-- Does `p` hold on some suffix of the character list? -/
def anySuffix (p : List Char → Bool) : List Char → Bool
  | [] => p []
  | c :: cs => p (c :: cs) || anySuffix p cs

/-- JS `/\/\/\s*@inco:\s+/.test(line)` (unanchored search). -/
def containsIncoDirective (s : String) : Bool :=
  anySuffix incoDirAt s.data

/-- The cached per-file scan: 0-based indices of the lines containing an
`@inco:` directive, in increasing order. -/
def computeDirectiveLines (content : String) : List Nat :=
  let lines := splitLines content
  (List.range lines.length).filter (fun i => containsIncoDirective (lines.getD i ""))

/-- The `for (const dl of directiveLines) ... else break` loop of
`snapToDirectiveLine`: latest directive line that is `≤ r`, scanning in list
order and stopping at the first that is not. -/
def nearestLE (ds : List Nat) (r : Int) (acc : Int) : Int :=
  match ds with
  | [] => acc
  | dl :: rest => if (dl : Int) ≤ r then nearestLE rest r dl else acc

/-- The pure core of `snapToDirectiveLine`, given the already-computed
directive-line index. -/
def snapCore (ds : List Nat) (errorLine : Int) : Int :=
  if ds.isEmpty then -1
  else if ds.any (fun dl => (dl : Int) = errorLine) then errorLine
  else
    let nearest := nearestLE ds errorLine (-1)
    if nearest = -1 then -1
    else if errorLine - nearest ≤ 30 then nearest
    else -1

/-- The process-wide `_directiveLineCache`, modelled as explicit state. -/
abbrev DirCache : Type := List (String × List Nat)

/-- `snapToDirectiveLine(filePath, errorLine)`: consult the cache, otherwise
read and scan the file (a failed read returns `-1` and caches nothing). -/
def snapToDirectiveLine (fs : FS) (cache : DirCache) (filePath : String)
    (errorLine : Int) : Int × DirCache :=
  match lookupA cache filePath with
  | some ds => (snapCore ds errorLine, cache)
  | none =>
    match fs.read filePath with
    | none => (-1, cache)
    | some content =>
      let ds := computeDirectiveLines content
      (snapCore ds errorLine, cache ++ [(filePath, ds)])

/-- The cache-free snap result (what `snapToDirectiveLine` computes whenever
its cache agrees with the file-system snapshot). -/
def snapEnv (fs : FS) (filePath : String) (errorLine : Int) : Int :=
  match fs.read filePath with
  | none => -1
  | some content => snapCore (computeDirectiveLines content) errorLine

/-- A cache state is consistent with the snapshot when every cached entry is
the scan of the file's current content. -/
def CacheConsistent (fs : FS) (cache : DirCache) : Prop :=
  ∀ p ds, lookupA cache p = some ds →
    ∃ content, fs.read p = some content ∧ ds = computeDirectiveLines content

/-!
## Overlay artifact (`loadOverlay`, `buildReverseOverlay`)

`JSON.parse` is modelled by a recursive-descent parser for JSON values.
Not modelled (irrelevant to the reconciler): combining `\u` surrogate pairs,
numeric property-key reordering of JS objects, and `Object.entries` on
string/array values of the `Replace` field.
-/

/-- A parsed JSON value.  Object fields keep textual order and duplicates;
duplicate-key collapse (last value, first position, as `JSON.parse` does) is
applied by `dedupFields` where field access or enumeration happens. -/
inductive Json where
  | null : Json
  | boolean (b : Bool) : Json
  | num (raw : String) : Json
  | str (s : String) : Json
  | arr (elems : List Json) : Json
  | obj (fields : List (String × Json)) : Json
deriving Repr

/-- JSON whitespace (`ws` in RFC 8259). -/
def isJWS (c : Char) : Bool :=
  c = ' ' || c = '\t' || c = '\n' || c = '\r'

/-- Hex digit value. -/
def hexVal (c : Char) : Option Nat :=
  if '0' ≤ c && c ≤ '9' then some (c.toNat - 48)
  else if 'a' ≤ c && c ≤ 'f' then some (c.toNat - 87)
  else if 'A' ≤ c && c ≤ 'F' then some (c.toNat - 55)
  else none

/-- Single-character JSON string escapes. -/
def escMap (c : Char) : Option Char :=
  if c = '"' then some '"'
  else if c = '\\' then some '\\'
  else if c = '/' then some '/'
  else if c = 'b' then some '\x08'
  else if c = 'f' then some '\x0c'
  else if c = 'n' then some '\n'
  else if c = 'r' then some '\r'
  else if c = 't' then some '\t'
  else none

/-- Parse the body of a JSON string (opening quote already consumed). -/
def parseJStrChars : Nat → List Char → Option (List Char × List Char)
  | 0, _ => none
  | _ + 1, [] => none
  | fuel + 1, c :: rest =>
    if c = '"' then some ([], rest)
    else if c = '\\' then
      match rest with
      | [] => none
      | e :: r2 =>
        if e = 'u' then
          match r2 with
          | h1 :: h2 :: h3 :: h4 :: r3 =>
            match hexVal h1, hexVal h2, hexVal h3, hexVal h4 with
            | some a, some b, some c', some d =>
              (parseJStrChars fuel r3).map
                (fun x => (Char.ofNat (((a * 16 + b) * 16 + c') * 16 + d) :: x.1, x.2))
            | _, _, _, _ => none
          | _ => none
        else
          match escMap e with
          | some ec => (parseJStrChars fuel r2).map (fun x => (ec :: x.1, x.2))
          | none => none
    else if c.toNat < 32 then none
    else (parseJStrChars fuel rest).map (fun x => (c :: x.1, x.2))

/-- Parse a JSON string literal after its opening quote. -/
def parseJStr (cs : List Char) : Option (String × List Char) :=
  (parseJStrChars (cs.length + 1) cs).map (fun x => (String.mk x.1, x.2))

/-- Parse a JSON number starting at `cs` (head is `-` or a digit), returning
the consumed characters and the rest. -/
def parseJNumber (cs : List Char) : Option (List Char × List Char) :=
  let afterSign := if cs.take 1 = ['-'] then cs.drop 1 else cs
  let intDigs := afterSign.takeWhile isDigitCh
  if intDigs.isEmpty then none
  else if 2 ≤ intDigs.length ∧ intDigs.take 1 = ['0'] then none
  else
    let afterInt := afterSign.drop intDigs.length
    let (fracOk, afterFrac) :=
      if afterInt.take 1 = ['.'] then
        let fd := (afterInt.drop 1).takeWhile isDigitCh
        (!fd.isEmpty, (afterInt.drop 1).drop fd.length)
      else (true, afterInt)
    if fracOk then
      let (expOk, afterExp) :=
        if afterFrac.take 1 = ['e'] ∨ afterFrac.take 1 = ['E'] then
          let body := afterFrac.drop 1
          let body2 := if body.take 1 = ['+'] ∨ body.take 1 = ['-'] then body.drop 1 else body
          let ed := body2.takeWhile isDigitCh
          (!ed.isEmpty, body2.drop ed.length)
        else (true, afterFrac)
      if expOk then
        some (cs.take (cs.length - afterExp.length), afterExp)
      else none
    else none

/-- The opening brace character of a JSON object. -/
def lbrace : Char := Char.ofNat 123

/-- The closing brace character of a JSON object. -/
def rbrace : Char := Char.ofNat 125

mutual

/-- Recursive-descent parse of one JSON value (leading whitespace allowed). -/
def parseJValue : Nat → List Char → Option (Json × List Char)
  | 0, _ => none
  | fuel + 1, cs0 =>
    match cs0.dropWhile isJWS with
    | [] => none
    | c :: rest =>
      if c = '"' then
        (parseJStr rest).map (fun x => (Json.str x.1, x.2))
      else if c = lbrace then
        match rest.dropWhile isJWS with
        | r :: rs =>
          if r = rbrace then some (Json.obj [], rs)
          else parseJMembers fuel (r :: rs)
        | [] => none
      else if c = '[' then
        match rest.dropWhile isJWS with
        | r :: rs =>
          if r = ']' then some (Json.arr [], rs)
          else (parseJElems fuel (r :: rs)).map (fun x => (Json.arr x.1, x.2))
        | [] => none
      else if c = 't' then
        if rest.take 3 = ['r', 'u', 'e'] then some (Json.boolean true, rest.drop 3)
        else none
      else if c = 'f' then
        if rest.take 4 = ['a', 'l', 's', 'e'] then some (Json.boolean false, rest.drop 4)
        else none
      else if c = 'n' then
        if rest.take 3 = ['u', 'l', 'l'] then some (Json.null, rest.drop 3)
        else none
      else if c = '-' ∨ isDigitCh c then
        (parseJNumber (c :: rest)).map (fun x => (Json.num (String.mk x.1), x.2))
      else none

/-- Parse object members starting at the first key, through the closing
brace. -/
def parseJMembers : Nat → List Char → Option (Json × List Char)
  | 0, _ => none
  | fuel + 1, cs0 =>
    match cs0.dropWhile isJWS with
    | '"' :: rest =>
      match parseJStr rest with
      | none => none
      | some (k, r1) =>
        match r1.dropWhile isJWS with
        | ':' :: r2 =>
          match parseJValue fuel r2 with
          | none => none
          | some (v, r3) =>
            match r3.dropWhile isJWS with
            | c :: r4 =>
              if c = ',' then
                match parseJMembers fuel r4 with
                | some (Json.obj fs, r5) => some (Json.obj ((k, v) :: fs), r5)
                | _ => none
              else if c = rbrace then some (Json.obj [(k, v)], r4)
              else none
            | [] => none
        | _ => none
    | _ => none

/-- Parse array elements starting at the first element, through the closing
bracket. -/
def parseJElems : Nat → List Char → Option (List Json × List Char)
  | 0, _ => none
  | fuel + 1, cs0 =>
    match parseJValue fuel cs0 with
    | none => none
    | some (v, r1) =>
      match r1.dropWhile isJWS with
      | c :: r2 =>
        if c = ',' then
          (parseJElems fuel r2).map (fun x => (v :: x.1, x.2))
        else if c = ']' then some ([v], r2)
        else none
      | [] => none

end

/-- `JSON.parse(raw)`: one value, with only whitespace around it. -/
def jsonParse (raw : String) : Option Json :=
  match parseJValue (raw.data.length + 1) raw.data with
  | some (v, rest) => if (rest.dropWhile isJWS).isEmpty then some v else none
  | none => none

/-- Collapse duplicate keys the way a JS object does: first occurrence keeps
its position, last occurrence keeps its value. -/
def dedupFields (fs : List (String × Json)) : List (String × Json) :=
  fs.foldl (fun acc f => setA acc f.1 f.2) []

/-- Property access `obj[k]` on a parsed JSON object (last duplicate wins). -/
def objGet (fields : List (String × Json)) (k : String) : Option Json :=
  lookupA (dedupFields fields) k

/-- `Object.entries(overlay.Replace)` restricted to string values (only
string keys can ever be hit by a path lookup). `none` models the TypeError
thrown when `Replace` is missing or null. -/
def overlayEntries (j : Json) : Option (List (String × String)) :=
  match j with
  | Json.obj fields =>
    match objGet fields "Replace" with
    | some (Json.obj rfields) =>
      some ((dedupFields rfields).filterMap
        (fun f => match f.2 with | Json.str s => some (f.1, s) | _ => none))
    | _ => none
  | _ => none

/-- `loadOverlay(workspaceRoot)` from the preview module: read
`.inco_cache/overlay.json`, `undefined` on a missing file or parse failure.
(The unvalidated `as IncoOverlay` cast keeps whatever JSON value parsed.) -/
def loadOverlay (fs : FS) (workspaceRoot : String) : Option Json :=
  match fs.read (pjoin (pjoin workspaceRoot ".inco_cache") "overlay.json") with
  | none => none
  | some raw => jsonParse raw

/-- `buildReverseOverlay(dir)`: shadow path → source path, built by
`result.set(shadow, source)` over the overlay entries in order; any read or
parse failure yields the empty map. -/
def buildReverseOverlay (fs : FS) (dir : String) : List (String × String) :=
  match fs.read (pjoin (pjoin dir ".inco_cache") "overlay.json") with
  | none => []
  | some raw =>
    match jsonParse raw with
    | none => []
    | some j =>
      match overlayEntries j with
      | none => []
      | some es => es.foldl (fun acc e => setA acc e.2 e.1) []

/-!
## Raw diagnostic extraction (`parseGoErrors`' error regex)

The compiler output is matched with `/^(.+?\.go):(\d+)(?::(\d+))?: (.+)$/gm`.
With the `m` flag and a start-of-line anchor this is equivalent to matching
each line once, in order.  `matchErrAux` reproduces the lazy `.+?`: it tries
every prefix ending in `.go`, shortest first.
-/

/-- One raw diagnostic as captured by the error regex. -/
structure ErrMatch where
  file : String
  line : Nat
  col : Option Nat
  message : String
deriving DecidableEq, Repr

/-- Parse `:(\d+)(?::(\d+))?: (.+)$` starting right after the `.go` prefix. -/
def parseRestErr (cs : List Char) : Option (Nat × Option Nat × String) :=
  match cs with
  | ':' :: cs1 =>
    let ds := cs1.takeWhile isDigitCh
    if ds.isEmpty then none
    else
      let cs2 := cs1.drop ds.length
      let fallback : Option (Nat × Option Nat × String) :=
        match cs2 with
        | ':' :: ' ' :: msg =>
          if msg.isEmpty then none else some (digitsToNat ds, none, String.mk msg)
        | _ => none
      match cs2 with
      | ':' :: cs3 =>
        let ds2 := cs3.takeWhile isDigitCh
        if ds2.isEmpty then fallback
        else
          match cs3.drop ds2.length with
          | ':' :: ' ' :: msg =>
            if msg.isEmpty then fallback
            else some (digitsToNat ds, some (digitsToNat ds2), String.mk msg)
          | _ => fallback
      | _ => fallback
  | _ => none

/-- Try every split point left to right (`acc` holds the reversed candidate
prefix); a prefix qualifies when it ends in `.go` with at least one char
before it and the remainder parses as `:(\d+)(?::(\d+))?: (.+)$`. -/
def matchErrAux (acc : List Char) : List Char → Option ErrMatch
  | [] => none
  | c :: rest =>
    let acc' := c :: acc
    if acc'.take 3 = ['o', 'g', '.'] ∧ 4 ≤ acc'.length then
      match parseRestErr rest with
      | some (ln, col, msg) => some ⟨String.mk acc'.reverse, ln, col, msg⟩
      | none => matchErrAux acc' rest
    else matchErrAux acc' rest

/-- Match one raw output line against the error regex. -/
def matchErrorLine (s : String) : Option ErrMatch :=
  matchErrAux [] s.data

/-- All raw diagnostics of the compiler output, in order. -/
def matchedLines (output : String) : List ErrMatch :=
  (splitLines output).filterMap matchErrorLine

/-!
## The reconciler (`parseGoErrors`)
-/

/-- A resolved diagnostic: 0-based line plus message (severity is fixed to
error and the range spans the line, so neither is modelled separately). -/
structure Diag where
  line : Int
  message : String
deriving DecidableEq, Repr

/-- The grouped output `Map<string, Diagnostic[]>`, in insertion order. -/
abbrev GoMap : Type := List (String × List Diag)

/-- The dedup test: is a diagnostic with this line and message already in the
list? -/
def hasDup (ds : List Diag) (l : Int) (msg : String) : Bool :=
  ds.any (fun d => d.line = l ∧ d.message = msg)

/-- Append the diagnostic to its file's list unless an entry with the same
line and message is already present (the dedup step). -/
def insertDiag (result : GoMap) (f : String) (l : Int) (msg : String) : GoMap :=
  let existing := (lookupA result f).getD []
  if hasDup existing l msg then result
  else setA result f (existing ++ [⟨l, msg⟩])

/-- The containment check followed by dedup-insert (`continue` on a source
file outside the workspace root). -/
def finishInsert (result : GoMap) (f : String) (l : Int) (msg : String)
    (wsDir : String) : GoMap :=
  if strStartsWith f wsDir then insertDiag result f l msg else result

/-- Is the message one of the skipped non-diagnostic artifacts? -/
def isNoiseMessage (msg : String) : Bool :=
  strStartsWith msg "too many errors" || strStartsWith msg "#"

/-- The body of `parseGoErrors`' match loop for one raw diagnostic, threading
the grouped result and the directive-line cache. -/
def processEntry (fs : FS) (rov : List (String × String)) (base wsDir : String)
    (st : GoMap × DirCache) (e : ErrMatch) : GoMap × DirCache :=
  let result := st.1
  let cache := st.2
  let errLine : Int := (e.line : Int) - 1
  let msg := e.message
  if isNoiseMessage msg then (result, cache)
  else
    let absFile := resolveAbs base e.file
    if strEndsWith absFile ".inco.go" || strEndsWith absFile ".inco" then
      -- Case A: the `//line` directive worked, the path is the source file.
      let s := snapToDirectiveLine fs cache absFile errLine
      let sourceLine := if s.1 ≠ -1 then s.1 else errLine
      (finishInsert result absFile sourceLine msg wsDir, s.2)
    else
      match lookupA rov absFile with
      | some sourceFile =>
        -- Case B: shadow-file path, recover source file and line.
        let mapped := mapShadowLineToSource fs absFile errLine
        if mapped ≠ -1 then
          let s := snapToDirectiveLine fs cache sourceFile mapped
          let sourceLine := if s.1 ≠ -1 then s.1 else mapped
          (finishInsert result sourceFile sourceLine msg wsDir, s.2)
        else (finishInsert result sourceFile errLine msg wsDir, cache)
      | none => (result, cache)

/-- `parseGoErrors(output, wsDir)`, with the `_directiveLineCache` state made
explicit (cleared by `checkBuildErrors` before each batch). -/
def parseGoErrors (fs : FS) (output wsDir : String) (cache : DirCache) :
    GoMap × DirCache :=
  let base := (findGoModDir fs wsDir).getD wsDir
  let rov := buildReverseOverlay fs base
  (matchedLines output).foldl (fun st e => processEntry fs rov base wsDir st e)
    ([], cache)

/-- The per-entry outcome of the loop, cache-free: the `(sourceFile,
sourceLine, message)` triple a raw diagnostic contributes, or `none` when it
is skipped or dropped.  Provably what `processEntry` inserts whenever the
cache is consistent with the snapshot. -/
def keptTriple (fs : FS) (rov : List (String × String)) (base wsDir : String)
    (e : ErrMatch) : Option (String × Int × String) :=
  let errLine : Int := (e.line : Int) - 1
  let msg := e.message
  if isNoiseMessage msg then none
  else
    let absFile := resolveAbs base e.file
    if strEndsWith absFile ".inco.go" || strEndsWith absFile ".inco" then
      let snapped := snapEnv fs absFile errLine
      let sourceLine := if snapped ≠ -1 then snapped else errLine
      if strStartsWith absFile wsDir then some (absFile, sourceLine, msg) else none
    else
      match lookupA rov absFile with
      | some sourceFile =>
        let mapped := mapShadowLineToSource fs absFile errLine
        let sourceLine :=
          if mapped ≠ -1 then
            let snapped := snapEnv fs sourceFile mapped
            if snapped ≠ -1 then snapped else mapped
          else errLine
        if strStartsWith sourceFile wsDir then some (sourceFile, sourceLine, msg)
        else none
      | none => none

/-- Cache-free mirror of `processEntry` on the grouped result. -/
def pureStep (fs : FS) (rov : List (String × String)) (base wsDir : String)
    (m : GoMap) (e : ErrMatch) : GoMap :=
  match keptTriple fs rov base wsDir e with
  | none => m
  | some t => insertDiag m t.1 t.2.1 t.2.2

/-- Does the grouped output contain this (file, line, message) triple? -/
def diagIn (m : GoMap) (f : String) (l : Int) (msg : String) : Bool :=
  hasDup ((lookupA m f).getD []) l msg

/-!
## Association-list lemmas
-/

theorem lookupA_nil {β : Type} (k : String) :
    lookupA ([] : List (String × β)) k = none := rfl

theorem lookupA_append {β : Type} (a b : List (String × β)) (k : String) :
    lookupA (a ++ b) k =
      match lookupA a k with
      | some v => some v
      | none => lookupA b k := by
  induction a with
  | nil => simp [lookupA]
  | cons e rest ih =>
    by_cases h : e.1 = k <;> simp [lookupA, h, ih]

theorem lookupA_setA {β : Type} (m : List (String × β)) (k k' : String) (v : β) :
    lookupA (setA m k v) k' = if k = k' then some v else lookupA m k' := by
  induction m with
  | nil => simp [setA, lookupA]
  | cons e rest ih =>
    by_cases h1 : e.1 = k
    · by_cases h2 : k = k' <;> simp [setA, lookupA, h1, h2]
    · by_cases h2 : e.1 = k'
      · have hk : ¬ k = k' := fun hh => h1 (hh ▸ h2)
        have hk' : ¬ k' = k := fun hh => hk hh.symm
        simp [setA, lookupA, h1, h2, hk, hk']
      · simp [setA, lookupA, h1, h2, ih]

/-!
## Membership lemmas for the grouped output
-/

theorem hasDup_append (a b : List Diag) (l : Int) (msg : String) :
    hasDup (a ++ b) l msg = (hasDup a l msg || hasDup b l msg) := by
  simp [hasDup]

theorem hasDup_singleton_self (l : Int) (msg : String) :
    hasDup [⟨l, msg⟩] l msg = true := by
  simp [hasDup]

theorem diagIn_insertDiag_self (m : GoMap) (f : String) (l : Int) (msg : String) :
    diagIn (insertDiag m f l msg) f l msg = true := by
  unfold insertDiag
  by_cases h : hasDup ((lookupA m f).getD []) l msg = true
  · rw [if_pos h]
    exact h
  · rw [if_neg h]
    unfold diagIn
    rw [lookupA_setA, if_pos rfl, Option.getD_some, hasDup_append,
      hasDup_singleton_self, Bool.or_true]

theorem diagIn_insertDiag_mono (m : GoMap) (f : String) (l : Int) (msg : String)
    (f' : String) (l' : Int) (msg' : String) (h : diagIn m f l msg = true) :
    diagIn (insertDiag m f' l' msg') f l msg = true := by
  unfold insertDiag
  by_cases hd : hasDup ((lookupA m f').getD []) l' msg' = true
  · rw [if_pos hd]
    exact h
  · rw [if_neg hd]
    unfold diagIn at h ⊢
    rw [lookupA_setA]
    by_cases hf : f' = f
    · subst hf
      rw [if_pos rfl, Option.getD_some, hasDup_append, h, Bool.true_or]
    · rw [if_neg hf]
      exact h

theorem diagIn_pureStep_mono (fs : FS) (rov : List (String × String))
    (base ws : String) (m : GoMap) (e : ErrMatch) (f : String) (l : Int)
    (msg : String) (h : diagIn m f l msg = true) :
    diagIn (pureStep fs rov base ws m e) f l msg = true := by
  unfold pureStep
  cases hk : keptTriple fs rov base ws e with
  | none => simpa
  | some t => exact diagIn_insertDiag_mono m f l msg t.1 t.2.1 t.2.2 h

theorem diagIn_pureStep_self (fs : FS) (rov : List (String × String))
    (base ws : String) (m : GoMap) (e : ErrMatch) (f : String) (l : Int)
    (msg : String) (h : keptTriple fs rov base ws e = some (f, l, msg)) :
    diagIn (pureStep fs rov base ws m e) f l msg = true := by
  unfold pureStep
  rw [h]
  exact diagIn_insertDiag_self m f l msg

theorem diagIn_foldl_mono (fs : FS) (rov : List (String × String))
    (base ws : String) (es : List ErrMatch) :
    ∀ m f l msg, diagIn m f l msg = true →
      diagIn (es.foldl (fun mm e => pureStep fs rov base ws mm e) m) f l msg = true := by
  induction es with
  | nil => intro m f l msg h; simpa
  | cons e rest ih =>
    intro m f l msg h
    simp only [List.foldl_cons]
    exact ih _ f l msg (diagIn_pureStep_mono fs rov base ws m e f l msg h)

theorem diagIn_foldl_of_mem (fs : FS) (rov : List (String × String))
    (base ws : String) (es : List ErrMatch) :
    ∀ m e f l msg, e ∈ es → keptTriple fs rov base ws e = some (f, l, msg) →
      diagIn (es.foldl (fun mm e => pureStep fs rov base ws mm e) m) f l msg = true := by
  induction es with
  | nil => intro m e f l msg h; cases h
  | cons e0 rest ih =>
    intro m e f l msg hmem hk
    simp only [List.foldl_cons]
    rcases List.mem_cons.mp hmem with h | h
    · subst h
      exact diagIn_foldl_mono fs rov base ws rest _ f l msg
        (diagIn_pureStep_self fs rov base ws m e f l msg hk)
    · exact ih _ e f l msg h hk

/-!
## Cache-consistency lemmas
-/

theorem cacheConsistent_nil (fs : FS) : CacheConsistent fs [] := by
  intro p ds h
  simp [lookupA] at h

theorem snapToDirectiveLine_fst (fs : FS) (cache : DirCache) (p : String)
    (e : Int) (hc : CacheConsistent fs cache) :
    (snapToDirectiveLine fs cache p e).1 = snapEnv fs p e := by
  unfold snapToDirectiveLine snapEnv
  cases hl : lookupA cache p with
  | some ds =>
    obtain ⟨content, hr, hds⟩ := hc p ds hl
    rw [hr, hds]
  | none =>
    cases hr : fs.read p <;> simp

theorem snapToDirectiveLine_consistent (fs : FS) (cache : DirCache)
    (p : String) (e : Int) (hc : CacheConsistent fs cache) :
    CacheConsistent fs (snapToDirectiveLine fs cache p e).2 := by
  unfold snapToDirectiveLine
  cases hl : lookupA cache p with
  | some ds => exact hc
  | none =>
    cases hr : fs.read p with
    | none => exact hc
    | some content =>
      intro q ds' hq
      rw [lookupA_append] at hq
      cases hq2 : lookupA cache q with
      | some v =>
        rw [hq2] at hq
        exact hc q ds' (by rw [hq2]; exact congrArg some (Option.some.inj hq))
      | none =>
        rw [hq2] at hq
        simp only [lookupA] at hq
        by_cases hpq : p = q
        · rw [if_pos hpq] at hq
          exact ⟨content, hpq ▸ hr, (Option.some.inj hq).symm⟩
        · rw [if_neg hpq] at hq
          cases hq

theorem processEntry_fst (fs : FS) (rov : List (String × String))
    (base ws : String) (st : GoMap × DirCache) (e : ErrMatch)
    (hc : CacheConsistent fs st.2) :
    (processEntry fs rov base ws st e).1 = pureStep fs rov base ws st.1 e := by
  obtain ⟨m, c⟩ := st
  unfold processEntry pureStep keptTriple
  dsimp only
  by_cases hn : isNoiseMessage e.message = true
  · rw [if_pos hn, if_pos hn]
  · rw [if_neg hn, if_neg hn]
    by_cases ha : (strEndsWith (resolveAbs base e.file) ".inco.go" ||
        strEndsWith (resolveAbs base e.file) ".inco") = true
    · rw [if_pos ha, if_pos ha]
      rw [snapToDirectiveLine_fst fs c (resolveAbs base e.file)
        (((e.line : Int)) - 1) hc]
      by_cases hw : strStartsWith (resolveAbs base e.file) ws = true
      · simp only [finishInsert, if_pos hw]
      · simp only [finishInsert, if_neg hw]
    · rw [if_neg ha, if_neg ha]
      cases hrov : lookupA rov (resolveAbs base e.file) with
      | none => rfl
      | some sourceFile =>
        simp only []
        by_cases hm : mapShadowLineToSource fs (resolveAbs base e.file)
            ((e.line : Int) - 1) ≠ -1
        · rw [if_pos hm, if_pos hm]
          rw [snapToDirectiveLine_fst fs c sourceFile
            (mapShadowLineToSource fs (resolveAbs base e.file)
              ((e.line : Int) - 1)) hc]
          by_cases hw : strStartsWith sourceFile ws = true
          · simp only [finishInsert, if_pos hw]
          · simp only [finishInsert, if_neg hw]
        · rw [if_neg hm, if_neg hm]
          by_cases hw : strStartsWith sourceFile ws = true
          · simp only [finishInsert, if_pos hw]
          · simp only [finishInsert, if_neg hw]

theorem processEntry_consistent (fs : FS) (rov : List (String × String))
    (base ws : String) (st : GoMap × DirCache) (e : ErrMatch)
    (hc : CacheConsistent fs st.2) :
    CacheConsistent fs (processEntry fs rov base ws st e).2 := by
  obtain ⟨m, c⟩ := st
  unfold processEntry
  dsimp only
  by_cases hn : isNoiseMessage e.message = true
  · rw [if_pos hn]
    exact hc
  · rw [if_neg hn]
    by_cases ha : (strEndsWith (resolveAbs base e.file) ".inco.go" ||
        strEndsWith (resolveAbs base e.file) ".inco") = true
    · rw [if_pos ha]
      exact snapToDirectiveLine_consistent fs c _ _ hc
    · rw [if_neg ha]
      cases hrov : lookupA rov (resolveAbs base e.file) with
      | none => exact hc
      | some sourceFile =>
        simp only []
        by_cases hm : mapShadowLineToSource fs (resolveAbs base e.file)
            ((e.line : Int) - 1) ≠ -1
        · rw [if_pos hm]
          exact snapToDirectiveLine_consistent fs c _ _ hc
        · rw [if_neg hm]
          exact hc

theorem foldl_processEntry_pure (fs : FS) (rov : List (String × String))
    (base ws : String) :
    ∀ (es : List ErrMatch) (m : GoMap) (c : DirCache), CacheConsistent fs c →
      (es.foldl (fun st e => processEntry fs rov base ws st e) (m, c)).1
          = es.foldl (fun mm e => pureStep fs rov base ws mm e) m
        ∧ CacheConsistent fs
            (es.foldl (fun st e => processEntry fs rov base ws st e) (m, c)).2 := by
  intro es
  induction es with
  | nil => intro m c hc; exact ⟨rfl, hc⟩
  | cons e rest ih =>
    intro m c hc
    simp only [List.foldl_cons]
    have h1 := processEntry_fst fs rov base ws (m, c) e hc
    have h2 := processEntry_consistent fs rov base ws (m, c) e hc
    have hpair : processEntry fs rov base ws (m, c) e =
        ((processEntry fs rov base ws (m, c) e).1,
         (processEntry fs rov base ws (m, c) e).2) := rfl
    rw [hpair, h1]
    exact ih (pureStep fs rov base ws m e)
      (processEntry fs rov base ws (m, c) e).2 h2

/-- The cache-free run that `parseGoErrors` provably computes whenever the
directive-line cache is consistent with the snapshot. -/
def pureRun (fs : FS) (output wsDir : String) : GoMap :=
  (matchedLines output).foldl
    (fun m e => pureStep fs
      (buildReverseOverlay fs ((findGoModDir fs wsDir).getD wsDir))
      ((findGoModDir fs wsDir).getD wsDir) wsDir m e) []

theorem parseGoErrors_fst (fs : FS) (output wsDir : String) (cache : DirCache)
    (hc : CacheConsistent fs cache) :
    (parseGoErrors fs output wsDir cache).1 = pureRun fs output wsDir := by
  unfold parseGoErrors pureRun
  exact (foldl_processEntry_pure fs _ _ wsDir (matchedLines output) [] cache hc).1

theorem parseGoErrors_consistent (fs : FS) (output wsDir : String)
    (cache : DirCache) (hc : CacheConsistent fs cache) :
    CacheConsistent fs (parseGoErrors fs output wsDir cache).2 := by
  unfold parseGoErrors
  exact (foldl_processEntry_pure fs _ _ wsDir (matchedLines output) [] cache hc).2

theorem diagIn_parseGoErrors (fs : FS) (output wsDir : String)
    (cache : DirCache) (hc : CacheConsistent fs cache) (e : ErrMatch)
    (f : String) (l : Int) (msg : String) (he : e ∈ matchedLines output)
    (hk : keptTriple fs
        (buildReverseOverlay fs ((findGoModDir fs wsDir).getD wsDir))
        ((findGoModDir fs wsDir).getD wsDir) wsDir e = some (f, l, msg)) :
    diagIn (parseGoErrors fs output wsDir cache).1 f l msg = true := by
  rw [parseGoErrors_fst fs output wsDir cache hc]
  exact diagIn_foldl_of_mem fs _ _ wsDir (matchedLines output) [] e f l msg he hk

/-!
## Shape and invariant lemmas for the reconciliation loop
-/

/-- Each loop iteration either leaves the grouped result unchanged or passes
one diagnostic through `finishInsert`, whose key comes from Case A (a path
with an inco suffix) or Case B (a reverse-overlay hit). -/
theorem processEntry_shape (fs : FS) (rov : List (String × String))
    (base ws : String) (st : GoMap × DirCache) (e : ErrMatch) :
    (processEntry fs rov base ws st e).1 = st.1 ∨
    (∃ l, (processEntry fs rov base ws st e).1
        = finishInsert st.1 (resolveAbs base e.file) l e.message ws ∧
      (strEndsWith (resolveAbs base e.file) ".inco.go" ||
        strEndsWith (resolveAbs base e.file) ".inco") = true) ∨
    (∃ f l, (processEntry fs rov base ws st e).1
        = finishInsert st.1 f l e.message ws ∧
      lookupA rov (resolveAbs base e.file) = some f) := by
  obtain ⟨m, c⟩ := st
  unfold processEntry
  dsimp only
  by_cases hn : isNoiseMessage e.message = true
  · rw [if_pos hn]
    exact Or.inl rfl
  · rw [if_neg hn]
    by_cases ha : (strEndsWith (resolveAbs base e.file) ".inco.go" ||
        strEndsWith (resolveAbs base e.file) ".inco") = true
    · rw [if_pos ha]
      exact Or.inr (Or.inl ⟨_, rfl, ha⟩)
    · rw [if_neg ha]
      cases hrov : lookupA rov (resolveAbs base e.file) with
      | none => exact Or.inl rfl
      | some sourceFile =>
        dsimp only
        by_cases hm : mapShadowLineToSource fs (resolveAbs base e.file)
            ((e.line : Int) - 1) ≠ -1
        · rw [if_pos hm]
          exact Or.inr (Or.inr ⟨sourceFile, _, rfl, rfl⟩)
        · rw [if_neg hm]
          exact Or.inr (Or.inr ⟨sourceFile, _, rfl, rfl⟩)

theorem keys_insertDiag (P : String → Prop) (m : GoMap) (f : String) (l : Int)
    (msg : String) (hm : ∀ f' ds, lookupA m f' = some ds → P f') (hf : P f) :
    ∀ f' ds, lookupA (insertDiag m f l msg) f' = some ds → P f' := by
  intro f' ds h
  unfold insertDiag at h
  by_cases hd : hasDup ((lookupA m f).getD []) l msg = true
  · rw [if_pos hd] at h
    exact hm f' ds h
  · rw [if_neg hd, lookupA_setA] at h
    by_cases hff : f = f'
    · exact hff ▸ hf
    · rw [if_neg hff] at h
      exact hm f' ds h

theorem keys_finishInsert_of (P : String → Prop) (m : GoMap) (f : String)
    (l : Int) (msg ws : String) (hm : ∀ f' ds, lookupA m f' = some ds → P f')
    (hf : P f) :
    ∀ f' ds, lookupA (finishInsert m f l msg ws) f' = some ds → P f' := by
  intro f' ds h
  unfold finishInsert at h
  by_cases hw : strStartsWith f ws = true
  · rw [if_pos hw] at h
    exact keys_insertDiag P m f l msg hm hf f' ds h
  · rw [if_neg hw] at h
    exact hm f' ds h

theorem keys_finishInsert_ws (m : GoMap) (f : String) (l : Int) (msg ws : String)
    (hm : ∀ f' ds, lookupA m f' = some ds → strStartsWith f' ws = true) :
    ∀ f' ds, lookupA (finishInsert m f l msg ws) f' = some ds →
      strStartsWith f' ws = true := by
  intro f' ds h
  unfold finishInsert at h
  by_cases hw : strStartsWith f ws = true
  · rw [if_pos hw] at h
    exact keys_insertDiag (fun g => strStartsWith g ws = true) m f l msg hm hw f' ds h
  · rw [if_neg hw] at h
    exact hm f' ds h

theorem keys_processEntry_ws (fs : FS) (rov : List (String × String))
    (base ws : String) (st : GoMap × DirCache) (e : ErrMatch)
    (hm : ∀ f' ds, lookupA st.1 f' = some ds → strStartsWith f' ws = true) :
    ∀ f' ds, lookupA (processEntry fs rov base ws st e).1 f' = some ds →
      strStartsWith f' ws = true := by
  rcases processEntry_shape fs rov base ws st e with h | ⟨l, h, _⟩ | ⟨f, l, h, _⟩
  · rw [h]; exact hm
  · rw [h]; exact keys_finishInsert_ws st.1 _ l e.message ws hm
  · rw [h]; exact keys_finishInsert_ws st.1 f l e.message ws hm

theorem keys_foldl_ws (fs : FS) (rov : List (String × String))
    (base ws : String) :
    ∀ (es : List ErrMatch) (st : GoMap × DirCache),
      (∀ f' ds, lookupA st.1 f' = some ds → strStartsWith f' ws = true) →
      ∀ f' ds,
        lookupA (es.foldl (fun s e => processEntry fs rov base ws s e) st).1 f'
          = some ds → strStartsWith f' ws = true := by
  intro es
  induction es with
  | nil => intro st hm; exact hm
  | cons e rest ih =>
    intro st hm
    simp only [List.foldl_cons]
    exact ih _ (keys_processEntry_ws fs rov base ws st e hm)

/-- Two resolved diagnostics that are not duplicates of one another. -/
def diagDistinct (a b : Diag) : Prop :=
  ¬ (a.line = b.line ∧ a.message = b.message)

instance (a b : Diag) : Decidable (diagDistinct a b) := by
  unfold diagDistinct
  infer_instance

theorem nodup_insertDiag (m : GoMap) (f : String) (l : Int) (msg : String)
    (hm : ∀ f' ds, lookupA m f' = some ds → ds.Pairwise diagDistinct) :
    ∀ f' ds, lookupA (insertDiag m f l msg) f' = some ds →
      ds.Pairwise diagDistinct := by
  intro f' ds h
  unfold insertDiag at h
  by_cases hd : hasDup ((lookupA m f).getD []) l msg = true
  · rw [if_pos hd] at h
    exact hm f' ds h
  · rw [if_neg hd, lookupA_setA] at h
    by_cases hff : f = f'
    · rw [if_pos hff] at h
      have hds : ds = (lookupA m f).getD [] ++ [⟨l, msg⟩] := (Option.some.inj h).symm
      subst hds
      have hex : ((lookupA m f).getD []).Pairwise diagDistinct := by
        cases hlf : lookupA m f with
        | none => simp
        | some ex => simpa using hm f ex hlf
      rw [List.pairwise_append]
      refine ⟨hex, by simp, ?_⟩
      intro a ha b hb
      have hb' : b = ⟨l, msg⟩ := by simpa using hb
      subst hb'
      intro hcontra
      exact hd (List.any_eq_true.mpr ⟨a, ha, by simp [hcontra.1, hcontra.2]⟩)
    · rw [if_neg hff] at h
      exact hm f' ds h

theorem nodup_finishInsert (m : GoMap) (f : String) (l : Int) (msg ws : String)
    (hm : ∀ f' ds, lookupA m f' = some ds → ds.Pairwise diagDistinct) :
    ∀ f' ds, lookupA (finishInsert m f l msg ws) f' = some ds →
      ds.Pairwise diagDistinct := by
  intro f' ds h
  unfold finishInsert at h
  by_cases hw : strStartsWith f ws = true
  · rw [if_pos hw] at h
    exact nodup_insertDiag m f l msg hm f' ds h
  · rw [if_neg hw] at h
    exact hm f' ds h

theorem nodup_processEntry (fs : FS) (rov : List (String × String))
    (base ws : String) (st : GoMap × DirCache) (e : ErrMatch)
    (hm : ∀ f' ds, lookupA st.1 f' = some ds → ds.Pairwise diagDistinct) :
    ∀ f' ds, lookupA (processEntry fs rov base ws st e).1 f' = some ds →
      ds.Pairwise diagDistinct := by
  rcases processEntry_shape fs rov base ws st e with h | ⟨l, h, _⟩ | ⟨f, l, h, _⟩
  · rw [h]; exact hm
  · rw [h]; exact nodup_finishInsert st.1 _ l e.message ws hm
  · rw [h]; exact nodup_finishInsert st.1 f l e.message ws hm

theorem nodup_foldl (fs : FS) (rov : List (String × String)) (base ws : String) :
    ∀ (es : List ErrMatch) (st : GoMap × DirCache),
      (∀ f' ds, lookupA st.1 f' = some ds → ds.Pairwise diagDistinct) →
      ∀ f' ds,
        lookupA (es.foldl (fun s e => processEntry fs rov base ws s e) st).1 f'
          = some ds → ds.Pairwise diagDistinct := by
  intro es
  induction es with
  | nil => intro st hm; exact hm
  | cons e rest ih =>
    intro st hm
    simp only [List.foldl_cons]
    exact ih _ (nodup_processEntry fs rov base ws st e hm)

/-!
## Backward marker scan lemmas
-/

theorem scanBack_found (lines : List String) (shadowLine : Nat) :
    ∀ (i m n : Nat), m ≤ i →
      matchLineDirective (lines.getD m "") = some n →
      (∀ j, m < j → j ≤ i → matchLineDirective (lines.getD j "") = none) →
      scanBackMarker lines shadowLine i
        = ((n : Int) - 1) + ((shadowLine : Int) - (m : Int) - 1) := by
  intro i
  induction i with
  | zero =>
    intro m n hm hmatch _
    have hm0 : m = 0 := Nat.le_zero.mp hm
    subst hm0
    simp only [scanBackMarker, hmatch]
    push_cast
    ring
  | succ i ih =>
    intro m n hm hmatch hnone
    by_cases hmi : m = i + 1
    · subst hmi
      simp only [scanBackMarker, hmatch]
      push_cast
      ring
    · have hm' : m ≤ i := Nat.lt_succ_iff.mp (lt_of_le_of_ne hm hmi)
      have hn1 : matchLineDirective (lines.getD (i + 1) "") = none :=
        hnone (i + 1) (Nat.lt_succ_of_le hm') (le_refl _)
      simp only [scanBackMarker, hn1]
      exact ih m n hm' hmatch (fun j h1 h2 => hnone j h1 (Nat.le_succ_of_le h2))

theorem scanBack_none (lines : List String) (shadowLine : Nat) :
    ∀ (i : Nat),
      (∀ j, j ≤ i → matchLineDirective (lines.getD j "") = none) →
      scanBackMarker lines shadowLine i = -1 := by
  intro i
  induction i with
  | zero =>
    intro hnone
    simp only [scanBackMarker, hnone 0 (le_refl _)]
  | succ i ih =>
    intro hnone
    simp only [scanBackMarker, hnone (i + 1) (le_refl _)]
    exact ih (fun j hj => hnone j (Nat.le_succ_of_le hj))

/-!
## Nearest-directive lemmas
-/

theorem nearestLE_all_gt (r : Int) :
    ∀ (ds : List Nat) (acc : Int), (∀ j ∈ ds, ¬ ((j : Int) ≤ r)) →
      nearestLE ds r acc = acc := by
  intro ds
  induction ds with
  | nil => intro acc _; rfl
  | cons dl rest ih =>
    intro acc hall
    unfold nearestLE
    rw [if_neg (hall dl (List.mem_cons_self dl rest))]

theorem nearestLE_max (r : Int) (m : Nat) :
    ∀ (ds : List Nat), List.Pairwise (· < ·) ds → m ∈ ds → (m : Int) ≤ r →
      (∀ j ∈ ds, (j : Int) ≤ r → j ≤ m) → ∀ acc, nearestLE ds r acc = m := by
  intro ds
  induction ds with
  | nil => intro _ hm; cases hm
  | cons dl rest ih =>
    intro hp hm hmr hmax acc
    unfold nearestLE
    rcases List.mem_cons.mp hm with he | he
    · subst he
      rw [if_pos hmr]
      apply nearestLE_all_gt
      intro j hj hjr
      have hlt : m < j := (List.pairwise_cons.mp hp).1 j hj
      have hle : j ≤ m := hmax j (List.mem_cons_of_mem _ hj) hjr
      omega
    · have hdlm : dl < m := (List.pairwise_cons.mp hp).1 m he
      have hdlr : (dl : Int) ≤ r := le_trans (by exact_mod_cast Nat.le_of_lt hdlm) hmr
      rw [if_pos hdlr]
      exact ih (List.pairwise_cons.mp hp).2 he hmr
        (fun j hj hjr => hmax j (List.mem_cons_of_mem _ hj) hjr) dl

theorem computeDirectiveLines_sorted (content : String) :
    List.Pairwise (· < ·) (computeDirectiveLines content) := by
  unfold computeDirectiveLines
  exact (List.pairwise_lt_range _).sublist (List.filter_sublist _)

/-!
## Reverse-overlay fold lemma
-/

theorem find?_append_cases {α : Type} (p : α → Bool) :
    ∀ (l1 l2 : List α), (l1 ++ l2).find? p =
      match l1.find? p with
      | some x => some x
      | none => l2.find? p := by
  intro l1
  induction l1 with
  | nil => intro l2; rfl
  | cons a rest ih =>
    intro l2
    by_cases h : p a = true
    · simp [List.find?, h]
    · simp only [List.cons_append, List.find?]
      rw [Bool.not_eq_true] at h
      rw [h]
      simp only []
      exact ih l2

theorem lookupA_foldl_setA (g : String) :
    ∀ (es acc : List (String × String)),
      lookupA (es.foldl (fun a e => setA a e.2 e.1) acc) g =
        match es.reverse.find? (fun e => e.2 == g) with
        | some x => some x.1
        | none => lookupA acc g := by
  intro es
  induction es with
  | nil => intro acc; rfl
  | cons e rest ih =>
    intro acc
    simp only [List.foldl_cons, List.reverse_cons]
    rw [ih, find?_append_cases]
    cases hf : rest.reverse.find? (fun x => x.2 == g) with
    | some x => rfl
    | none =>
      simp only [List.find?]
      by_cases hg : e.2 = g
      · rw [lookupA_setA, if_pos hg]
        have : (e.2 == g) = true := beq_iff_eq.mpr hg
        rw [this]
      · rw [lookupA_setA, if_neg hg]
        have : (e.2 == g) = false := beq_eq_false_iff_ne.mpr hg
        rw [this]

/-!
## Claim theorems
-/

/--
C1: For every generated-file text and 0-based physical line index `p`, if the
nearest positional-marker line at or before `p` is at line `m` and declares
1-based line `N`, then marker line resolution returns the 0-based original
line `(N - 1) + (p - m - 1)`; if no marker lies at or before `p`, it returns
NotFound (`-1`).
-/
theorem C1_marker_resolution (content : String) (p : Nat) :
    (∀ m n : Nat, m ≤ p →
      matchLineDirective ((splitLines content).getD m "") = some n →
      (∀ j, j ≤ p → m < j →
        matchLineDirective ((splitLines content).getD j "") = none) →
      mapShadowContent content (p : Int)
        = ((n : Int) - 1) + ((p : Int) - (m : Int) - 1))
    ∧ ((∀ j, j ≤ p → matchLineDirective ((splitLines content).getD j "") = none) →
      mapShadowContent content (p : Int) = -1) := by
  have hpos : ¬ ((p : Int) < 0) := by omega
  constructor
  · intro m n hm hmatch hnone
    unfold mapShadowContent
    rw [if_neg hpos, Int.toNat_natCast]
    exact scanBack_found (splitLines content) p p m n hm hmatch
      (fun j h1 h2 => hnone j h2 h1)
  · intro hnone
    unfold mapShadowContent
    rw [if_neg hpos, Int.toNat_natCast]
    exact scanBack_none (splitLines content) p p hnone

/--
Witness for C1, the spec's Scenario 1: a marker `//line foo.go:42` at
physical line 10 and a diagnostic at physical line 12 resolve to original
line 42 = (42 - 1) + (12 - 10 - 1).
-/
theorem C1_marker_resolution_witness :
    mapShadowContent "\n\n\n\n\n\n\n\n\n\n//line foo.go:42\nx\ny" (12 : Int) = 42 := by
  have h := (C1_marker_resolution "\n\n\n\n\n\n\n\n\n\n//line foo.go:42\nx\ny" 12).1
    10 42 (by decide) (by decide) (by decide)
  norm_num at h
  exact h

/--
C2: For every original-file text and 0-based raw line `r`: a raw line that is
itself a directive line is returned unchanged; otherwise the nearest
directive line `m` at or before `r` is returned when `r - m ≤ 30`; when the
nearest preceding directive is farther than 30 lines, or no directive
precedes `r`, the result is NotFound (`-1`).
-/
theorem C2_snap_to_directive (content : String) (r : Nat) :
    (r ∈ computeDirectiveLines content →
      snapCore (computeDirectiveLines content) (r : Int) = (r : Int))
    ∧ (∀ m : Nat, r ∉ computeDirectiveLines content →
        m ∈ computeDirectiveLines content → m ≤ r →
        (∀ j ∈ computeDirectiveLines content, j ≤ r → j ≤ m) →
        (r - m ≤ 30 →
          snapCore (computeDirectiveLines content) (r : Int) = (m : Int))
        ∧ (30 < r - m →
          snapCore (computeDirectiveLines content) (r : Int) = -1))
    ∧ ((∀ j ∈ computeDirectiveLines content, ¬ j ≤ r) →
      snapCore (computeDirectiveLines content) (r : Int) = -1) := by
  refine ⟨?_, ?_, ?_⟩
  · intro hr
    unfold snapCore
    rw [if_neg (by simp [List.isEmpty_iff, List.ne_nil_of_mem hr])]
    rw [if_pos (List.any_eq_true.mpr ⟨r, hr, by simp⟩)]
  · intro m hnr hm hmr hmax
    have hany : ¬ ((computeDirectiveLines content).any
        (fun dl => (dl : Int) = (r : Int)) = true) := by
      intro hany
      obtain ⟨dl, hdl, hp⟩ := List.any_eq_true.mp hany
      have : dl = r := by exact_mod_cast of_decide_eq_true hp
      exact hnr (this ▸ hdl)
    have hnear : nearestLE (computeDirectiveLines content) (r : Int) (-1) = (m : Int) :=
      nearestLE_max (r : Int) m (computeDirectiveLines content)
        (computeDirectiveLines_sorted content) hm (by exact_mod_cast hmr)
        (fun j hj hjr => hmax j hj (by exact_mod_cast hjr)) (-1)
    have hmne : ¬ ((m : Int) = -1) := by omega
    constructor
    · intro hdist
      unfold snapCore
      rw [if_neg (by simp [List.isEmpty_iff, List.ne_nil_of_mem hm])]
      rw [if_neg hany]
      dsimp only
      rw [hnear, if_neg hmne, if_pos (by omega)]
    · intro hdist
      unfold snapCore
      rw [if_neg (by simp [List.isEmpty_iff, List.ne_nil_of_mem hm])]
      rw [if_neg hany]
      dsimp only
      rw [hnear, if_neg hmne, if_neg (by omega)]
  · intro hall
    unfold snapCore
    by_cases hds : (computeDirectiveLines content).isEmpty = true
    · rw [if_pos hds]
    · rw [if_neg hds]
      have hany : ¬ ((computeDirectiveLines content).any
          (fun dl => (dl : Int) = (r : Int)) = true) := by
        intro hany
        obtain ⟨dl, hdl, hp⟩ := List.any_eq_true.mp hany
        have : dl = r := by exact_mod_cast of_decide_eq_true hp
        exact hall dl hdl (by omega)
      rw [if_neg hany]
      dsimp only
      have hnear : nearestLE (computeDirectiveLines content) (r : Int) (-1) = -1 :=
        nearestLE_all_gt (r : Int) _ _
          (fun j hj hjr => hall j hj (by exact_mod_cast hjr))
      rw [hnear, if_pos rfl]

/--
Witness for C2, the spec's Scenarios 2 and 3: a directive at line 30 with
raw line 31 snaps to 30; a raw line 100 whose nearest directive is at line 50
(distance 50 > 30) yields NotFound.
-/
theorem C2_snap_to_directive_witness :
    snapCore (computeDirectiveLines
      "\n\n\n\n\n\n\n\n\n\n\n\n\n\n\n\n\n\n\n\n\n\n\n\n\n\n\n\n\n\n// @inco: check a\nx")
      (31 : Int) = 30
    ∧ snapCore (computeDirectiveLines
      ("\n\n\n\n\n\n\n\n\n\n\n\n\n\n\n\n\n\n\n\n\n\n\n\n\n\n\n\n\n\n\n\n\n\n\n\n\n" ++
       "\n\n\n\n\n\n\n\n\n\n\n\n\n// @inco: check b\ny"))
      (100 : Int) = -1 := by
  constructor
  · have h := ((C2_snap_to_directive
      "\n\n\n\n\n\n\n\n\n\n\n\n\n\n\n\n\n\n\n\n\n\n\n\n\n\n\n\n\n\n// @inco: check a\nx"
      31).2.1 30 (by decide) (by decide) (by decide) (by decide)).1 (by decide)
    exact_mod_cast h
  · have h := ((C2_snap_to_directive
      ("\n\n\n\n\n\n\n\n\n\n\n\n\n\n\n\n\n\n\n\n\n\n\n\n\n\n\n\n\n\n\n\n\n\n\n\n\n" ++
       "\n\n\n\n\n\n\n\n\n\n\n\n\n// @inco: check b\ny")
      100).2.1 50 (by decide) (by decide) (by decide) (by decide)).2 (by decide)
    exact_mod_cast h

/--
C10: When the nearest marker at or before the reported physical line sits on
the reported line itself (offset `-1`), marker resolution returns `N - 2` for
a declared 1-based line `N`; for `N = 1` this equals the NotFound sentinel
`-1`, and the caller therefore treats the successfully computed position as a
resolution failure and emits the raw line.
-/
theorem C10_marker_on_error_line (content : String) (p : Nat) :
    (∀ n : Nat, matchLineDirective ((splitLines content).getD p "") = some n →
      mapShadowContent content (p : Int) = (n : Int) - 2)
    ∧ (matchLineDirective ((splitLines content).getD p "") = some 1 →
      mapShadowContent content (p : Int) = -1)
    ∧ (∀ (fs : FS) (rov : List (String × String)) (base ws : String)
        (st : GoMap × DirCache) (e : ErrMatch) (f : String),
        isNoiseMessage e.message = false →
        (strEndsWith (resolveAbs base e.file) ".inco.go" ||
          strEndsWith (resolveAbs base e.file) ".inco") = false →
        lookupA rov (resolveAbs base e.file) = some f →
        mapShadowLineToSource fs (resolveAbs base e.file) ((e.line : Int) - 1) = -1 →
        strStartsWith f ws = true →
        diagIn (processEntry fs rov base ws st e).1 f ((e.line : Int) - 1)
          e.message = true) := by
  have key : ∀ n : Nat, matchLineDirective ((splitLines content).getD p "") = some n →
      mapShadowContent content (p : Int) = (n : Int) - 2 := by
    intro n hmatch
    unfold mapShadowContent
    rw [if_neg (by omega), Int.toNat_natCast]
    have h := scanBack_found (splitLines content) p p p n (le_refl p) hmatch
      (fun j h1 h2 => absurd h1 (by omega))
    rw [h]
    ring
  refine ⟨key, ?_, ?_⟩
  · intro hmatch
    rw [key 1 hmatch]
    norm_num
  · intro fs rov base ws st e f hn ha hrov hmapped hw
    unfold processEntry
    dsimp only
    rw [if_neg (by simp [hn]), if_neg (by simp [ha]), hrov]
    dsimp only
    rw [if_neg (by simp [hmapped])]
    unfold finishInsert
    rw [if_pos hw]
    exact diagIn_insertDiag_self st.1 f ((e.line : Int) - 1) e.message

/--
Witness for C10: a `//line foo.go:1` marker on the error line itself makes
resolution compute `-1`, and a Case-B diagnostic whose marker resolution
returns `-1` is emitted at its raw 0-based line.
-/
theorem C10_marker_on_error_line_witness :
    mapShadowContent "//line foo.go:1\nx" (0 : Int) = -1
    ∧ diagIn (processEntry (FS.mk [] []) [("/s/g.go", "/ws/a.inco.go")] "/b" "/ws"
        ([], []) ⟨"/s/g.go", 5, none, "boom"⟩).1 "/ws/a.inco.go" 4 "boom" = true := by
  constructor
  · exact_mod_cast (C10_marker_on_error_line "//line foo.go:1\nx" 0).2.1 (by decide)
  · have h := (C10_marker_on_error_line "" 0).2.2 (FS.mk [] [])
      [("/s/g.go", "/ws/a.inco.go")] "/b" "/ws" ([], [])
      ⟨"/s/g.go", 5, none, "boom"⟩ "/ws/a.inco.go"
      (by decide) (by decide) (by decide) (by decide) (by decide)
    norm_num at h
    exact h

/-- An overlay artifact in which two distinct original paths map to the same
generated path (used to settle C3). -/
def overlayDupText : String :=
  "\x7b\"Replace\": \x7b\"/ws/a.inco.go\": \"/g.go\", \"/ws/b.inco.go\": \"/g.go\"\x7d\x7d"

/-- A snapshot holding `overlayDupText` as the overlay artifact of `/ws`. -/
def fsDup : FS :=
  FS.mk [("/ws/.inco_cache/overlay.json", overlayDupText)] []

/--
C3 counterexample: with two original paths `/ws/a.inco.go` (first) and
`/ws/b.inco.go` (second) both mapping to `/g.go`, the derived reverse overlay
maps `/g.go` to the SECOND original path, not the first — `Map.set` overwrites
earlier entries, so the claimed "first match wins" is false.
-/
theorem C3_first_match_counterexample :
    lookupA (buildReverseOverlay fsDup "/ws") "/g.go" = some "/ws/b.inco.go"
    ∧ lookupA (buildReverseOverlay fsDup "/ws") "/g.go" ≠ some "/ws/a.inco.go" := by
  constructor
  · decide
  · decide

/--
C3 amended: when two distinct original paths map to the same generated path,
the derived reverse mapping associates that generated path with the LAST
original path in table order (later `Map.set` calls overwrite earlier ones);
for every generated path the reverse lookup returns the latest original entry
that maps to it.
-/
theorem C3_last_match_wins (fs : FS) (dir g raw : String) (j : Json)
    (es : List (String × String))
    (hread : fs.read (pjoin (pjoin dir ".inco_cache") "overlay.json") = some raw)
    (hparse : jsonParse raw = some j)
    (hentries : overlayEntries j = some es) :
    lookupA (buildReverseOverlay fs dir) g =
      (es.reverse.find? (fun e => e.2 == g)).map (fun e => e.1) := by
  unfold buildReverseOverlay
  rw [hread]
  dsimp only
  rw [hparse]
  dsimp only
  rw [hentries]
  dsimp only
  rw [lookupA_foldl_setA]
  cases hf : es.reverse.find? (fun e => e.2 == g) with
  | some x => rfl
  | none => rfl

/--
Witness for C3's amended claim, instantiated at the duplicate-entry overlay:
the reverse lookup of `/g.go` is the last original entry mapping to it.
-/
theorem C3_last_match_wins_witness :
    lookupA (buildReverseOverlay fsDup "/ws") "/g.go" =
      (([("/ws/a.inco.go", "/g.go"), ("/ws/b.inco.go", "/g.go")].reverse.find?
        (fun e => e.2 == "/g.go")).map (fun e => e.1)) :=
  C3_last_match_wins fsDup "/ws" "/g.go" overlayDupText
    (Json.obj [("Replace", Json.obj
      [("/ws/a.inco.go", Json.str "/g.go"), ("/ws/b.inco.go", Json.str "/g.go")])])
    [("/ws/a.inco.go", "/g.go"), ("/ws/b.inco.go", "/g.go")]
    (by decide) (by rfl) (by rfl)

theorem keys_processEntry_suffix (fs : FS) (base ws : String)
    (st : GoMap × DirCache) (e : ErrMatch)
    (hm : ∀ f' ds, lookupA st.1 f' = some ds →
      (strEndsWith f' ".inco.go" || strEndsWith f' ".inco") = true) :
    ∀ f' ds, lookupA (processEntry fs [] base ws st e).1 f' = some ds →
      (strEndsWith f' ".inco.go" || strEndsWith f' ".inco") = true := by
  rcases processEntry_shape fs [] base ws st e with h | ⟨l, h, ha⟩ | ⟨f, l, h, hrov⟩
  · rw [h]; exact hm
  · rw [h]
    exact keys_finishInsert_of
      (fun g => (strEndsWith g ".inco.go" || strEndsWith g ".inco") = true)
      st.1 _ l e.message ws hm ha
  · simp [lookupA] at hrov

theorem keys_foldl_suffix (fs : FS) (base ws : String) :
    ∀ (es : List ErrMatch) (st : GoMap × DirCache),
      (∀ f' ds, lookupA st.1 f' = some ds →
        (strEndsWith f' ".inco.go" || strEndsWith f' ".inco") = true) →
      ∀ f' ds,
        lookupA (es.foldl (fun s e => processEntry fs [] base ws s e) st).1 f'
          = some ds →
        (strEndsWith f' ".inco.go" || strEndsWith f' ".inco") = true := by
  intro es
  induction es with
  | nil => intro st hm; exact hm
  | cons e rest ih =>
    intro st hm
    simp only [List.foldl_cons]
    exact ih _ (keys_processEntry_suffix fs base ws st e hm)

/--
C4: When the substitution artifact is absent, the reconciler's grouped output
contains nothing for any raw diagnostic that pointed at a generated-tree path
(every output key carries an original-tree suffix), while raw diagnostics
already pointing at original-tree paths are still resolved and emitted via
snapping alone.
-/
theorem C4_absent_artifact (fs : FS) (output wsDir : String) (cache : DirCache)
    (habs : fs.read (pjoin (pjoin ((findGoModDir fs wsDir).getD wsDir)
      ".inco_cache") "overlay.json") = none) :
    (∀ f ds, lookupA (parseGoErrors fs output wsDir cache).1 f = some ds →
      (strEndsWith f ".inco.go" || strEndsWith f ".inco") = true)
    ∧ (CacheConsistent fs cache → ∀ e ∈ matchedLines output,
        isNoiseMessage e.message = false →
        (strEndsWith (resolveAbs ((findGoModDir fs wsDir).getD wsDir) e.file)
            ".inco.go" ||
          strEndsWith (resolveAbs ((findGoModDir fs wsDir).getD wsDir) e.file)
            ".inco") = true →
        strStartsWith (resolveAbs ((findGoModDir fs wsDir).getD wsDir) e.file)
          wsDir = true →
        diagIn (parseGoErrors fs output wsDir cache).1
          (resolveAbs ((findGoModDir fs wsDir).getD wsDir) e.file)
          (if snapEnv fs (resolveAbs ((findGoModDir fs wsDir).getD wsDir) e.file)
              ((e.line : Int) - 1) ≠ -1
            then snapEnv fs (resolveAbs ((findGoModDir fs wsDir).getD wsDir) e.file)
              ((e.line : Int) - 1)
            else (e.line : Int) - 1)
          e.message = true) := by
  have hrov : buildReverseOverlay fs ((findGoModDir fs wsDir).getD wsDir) = [] := by
    unfold buildReverseOverlay
    rw [habs]
  constructor
  · intro f ds h
    unfold parseGoErrors at h
    dsimp only at h
    rw [hrov] at h
    refine keys_foldl_suffix fs _ wsDir (matchedLines output) ([], cache) ?_ f ds h
    intro f' ds' h'
    simp [lookupA] at h'
  · intro hc e he hn ha hw
    refine diagIn_parseGoErrors fs output wsDir cache hc e _ _ _ he ?_
    unfold keptTriple
    dsimp only
    rw [if_neg (by simp [hn]), if_pos ha, if_pos hw]

/--
Witness for C4, the spec's Scenario 4: without an overlay artifact, a
diagnostic on a shadow path contributes nothing while one on an original-tree
path is still emitted (snapped to the directive at line 0).
-/
theorem C4_absent_artifact_witness :
    (∀ f ds, lookupA (parseGoErrors (FS.mk [("/ws/a.inco.go", "// @inco: check t\nx")] [])
        "/ws/a.inco.go:1: boom\n/ws/.inco_cache/a.go:3: bad" "/ws" []).1 f = some ds →
      (strEndsWith f ".inco.go" || strEndsWith f ".inco") = true)
    ∧ diagIn (parseGoErrors (FS.mk [("/ws/a.inco.go", "// @inco: check t\nx")] [])
        "/ws/a.inco.go:1: boom\n/ws/.inco_cache/a.go:3: bad" "/ws" []).1
        "/ws/a.inco.go" 0 "boom" = true := by
  have h := C4_absent_artifact (FS.mk [("/ws/a.inco.go", "// @inco: check t\nx")] [])
    "/ws/a.inco.go:1: boom\n/ws/.inco_cache/a.go:3: bad" "/ws" [] (by decide)
  refine ⟨h.1, ?_⟩
  have h2 := h.2 (cacheConsistent_nil _) ⟨"/ws/a.inco.go", 1, none, "boom"⟩
    (by decide) (by decide) (by decide) (by decide)
  simpa using h2

/-- A snapshot whose overlay maps an original file OUTSIDE the workspace root
to a shadow file inside it (used to settle C5). -/
def fsOutside : FS :=
  FS.mk [("/ws/.inco_cache/overlay.json",
    "\x7b\"Replace\": \x7b\"/elsewhere/src.inco.go\": \"/ws/.inco_cache/g.go\"\x7d\x7d")] []

/--
C5 counterexample: a raw diagnostic on `/ws/.inco_cache/g.go` IS attributable
to an original file (the reverse substitution table maps it to
`/elsewhere/src.inco.go`), yet the batch output is empty — the diagnostic is
dropped by the workspace-root containment check, refuting the claim that only
diagnostics attributable to no original file at all are dropped.
-/
theorem C5_only_unattributable_dropped_counterexample :
    lookupA (buildReverseOverlay fsOutside "/ws") "/ws/.inco_cache/g.go"
        = some "/elsewhere/src.inco.go"
    ∧ (parseGoErrors fsOutside "/ws/.inco_cache/g.go:3: boom" "/ws" []).1 = [] := by
  constructor
  · decide
  · decide

/--
C5 amended: for every raw diagnostic whose path resolves to a generated-tree
file present in the reverse substitution table and whose mapped original file
lies inside the workspace root, a failed marker resolution (NotFound) still
emits the diagnostic at its raw 0-based line un-snapped, and a successful one
emits the resolved line passed through snapping; only diagnostics that are
compiler noise, attributable to no original file at all, or whose resolved
original file falls outside the workspace root are dropped.
-/
theorem C5_raw_line_fallback (fs : FS) (output wsDir : String)
    (cache : DirCache) (e : ErrMatch) (f : String)
    (hc : CacheConsistent fs cache) (he : e ∈ matchedLines output)
    (hn : isNoiseMessage e.message = false)
    (ha : (strEndsWith (resolveAbs ((findGoModDir fs wsDir).getD wsDir) e.file)
        ".inco.go" ||
      strEndsWith (resolveAbs ((findGoModDir fs wsDir).getD wsDir) e.file)
        ".inco") = false)
    (hrov : lookupA (buildReverseOverlay fs ((findGoModDir fs wsDir).getD wsDir))
      (resolveAbs ((findGoModDir fs wsDir).getD wsDir) e.file) = some f)
    (hw : strStartsWith f wsDir = true) :
    (mapShadowLineToSource fs
        (resolveAbs ((findGoModDir fs wsDir).getD wsDir) e.file)
        ((e.line : Int) - 1) = -1 →
      diagIn (parseGoErrors fs output wsDir cache).1 f ((e.line : Int) - 1)
        e.message = true)
    ∧ (∀ mp : Int, mapShadowLineToSource fs
        (resolveAbs ((findGoModDir fs wsDir).getD wsDir) e.file)
        ((e.line : Int) - 1) = mp → mp ≠ -1 →
      diagIn (parseGoErrors fs output wsDir cache).1 f
        (if snapEnv fs f mp ≠ -1 then snapEnv fs f mp else mp)
        e.message = true) := by
  constructor
  · intro hmapped
    refine diagIn_parseGoErrors fs output wsDir cache hc e _ _ _ he ?_
    unfold keptTriple
    dsimp only
    rw [if_neg (by simp [hn]), if_neg (by simp [ha]), hrov]
    dsimp only
    rw [if_pos hw, if_neg (by simp [hmapped])]
  · intro mp hmapped hne
    refine diagIn_parseGoErrors fs output wsDir cache hc e _ _ _ he ?_
    unfold keptTriple
    dsimp only
    rw [if_neg (by simp [hn]), if_neg (by simp [ha]), hrov]
    dsimp only
    rw [hmapped, if_pos hw, if_pos hne]

/-- A snapshot with a valid overlay entry for an in-workspace original file
whose shadow file cannot be read (used by C5's witness: the read failure makes
marker resolution return NotFound). -/
def fsShadowGone : FS :=
  FS.mk [("/ws/.inco_cache/overlay.json",
    "\x7b\"Replace\": \x7b\"/ws/b.inco.go\": \"/ws/.inco_cache/b.go\"\x7d\x7d")] []

/--
Witness for C5's amended claim: a shadow-file diagnostic whose marker
resolution fails (the shadow file cannot be read) is still emitted, at its
raw 0-based line 0, attributed to the original file from the reverse table.
-/
theorem C5_raw_line_fallback_witness :
    diagIn (parseGoErrors fsShadowGone "/ws/.inco_cache/b.go:1: boom" "/ws" []).1
      "/ws/b.inco.go" 0 "boom" = true := by
  have h := (C5_raw_line_fallback fsShadowGone "/ws/.inco_cache/b.go:1: boom"
    "/ws" [] ⟨"/ws/.inco_cache/b.go", 1, none, "boom"⟩ "/ws/b.inco.go"
    (cacheConsistent_nil fsShadowGone) (by decide) (by decide) (by decide)
    (by decide) (by decide)).1 (by decide)
  simpa using h

/--
C6: Within one reconciliation batch, every per-file list of the grouped
output is free of duplicates by (line, message): two raw entries resolving to
the same (original file, resolved line, message) triple produce exactly one
resolved diagnostic.
-/
theorem C6_dedup_within_batch (fs : FS) (output wsDir : String)
    (cache : DirCache) (f : String) (ds : List Diag)
    (h : lookupA (parseGoErrors fs output wsDir cache).1 f = some ds) :
    ds.Pairwise diagDistinct := by
  unfold parseGoErrors at h
  refine nodup_foldl fs _ _ wsDir (matchedLines output) ([], cache) ?_ f ds h
  intro f' ds' h'
  simp [lookupA] at h'

/-- The snapshot used by the batch-level witnesses: one original file with no
directives. -/
def fsWit : FS := FS.mk [("/ws/a.inco.go", "x")] []

/-- Compiler output with the same diagnostic twice (the spec's Scenario 5). -/
def outWit : String := "/ws/a.inco.go:5: boom\n/ws/a.inco.go:5: boom"

/--
Witness for C6: two identical raw diagnostics collapse to the single-entry
list `[{line := 4, message := boom}]`, which is duplicate-free.
-/
theorem C6_dedup_within_batch_witness :
    lookupA (parseGoErrors fsWit outWit "/ws" []).1 "/ws/a.inco.go"
        = some [⟨4, "boom"⟩]
    ∧ List.Pairwise diagDistinct [Diag.mk 4 "boom"] :=
  ⟨by decide, C6_dedup_within_batch fsWit outWit "/ws" [] "/ws/a.inco.go"
    [⟨4, "boom"⟩] (by decide)⟩

/--
C7: Every original-file key of the grouped output lies inside the workspace
root (string-prefix containment); a diagnostic resolving outside the
workspace root never appears, however it was resolved.
-/
theorem C7_workspace_containment (fs : FS) (output wsDir : String)
    (cache : DirCache) (f : String) (ds : List Diag)
    (h : lookupA (parseGoErrors fs output wsDir cache).1 f = some ds) :
    strStartsWith f wsDir = true := by
  unfold parseGoErrors at h
  refine keys_foldl_ws fs _ _ wsDir (matchedLines output) ([], cache) ?_ f ds h
  intro f' ds' h'
  simp [lookupA] at h'

/--
Witness for C7: the key produced by the witness batch indeed lies under the
workspace root `/ws`.
-/
theorem C7_workspace_containment_witness :
    strStartsWith "/ws/a.inco.go" "/ws" = true :=
  C7_workspace_containment fsWit outWit "/ws" [] "/ws/a.inco.go"
    [⟨4, "boom"⟩] (by decide)

/--
C9: Running the reconciler twice on identical raw compiler output and an
identical file snapshot yields identical grouped results — here in the strong
form that a second run starting from the cache state left by the first run
(or from any cache consistent with the snapshot) produces the same grouping.
-/
theorem C9_idempotent (fs : FS) (output wsDir : String) (cache : DirCache)
    (hc : CacheConsistent fs cache) :
    (parseGoErrors fs output wsDir
        ((parseGoErrors fs output wsDir cache).2)).1
      = (parseGoErrors fs output wsDir cache).1 := by
  rw [parseGoErrors_fst fs output wsDir cache hc,
    parseGoErrors_fst fs output wsDir _
      (parseGoErrors_consistent fs output wsDir cache hc)]

/--
Witness for C9: the double run on the concrete witness snapshot, starting
from the empty (freshly invalidated) cache.
-/
theorem C9_idempotent_witness :
    (parseGoErrors fsWit outWit "/ws"
        ((parseGoErrors fsWit outWit "/ws" []).2)).1
      = (parseGoErrors fsWit outWit "/ws" []).1 :=
  C9_idempotent fsWit outWit "/ws" [] (cacheConsistent_nil fsWit)

/--
C8: Loading the substitution table never throws (both loaders are total,
Option- or list-valued): an absent artifact and an artifact that fails to
parse as JSON are treated identically, as NotFound — `loadOverlay` yields
`none` and `buildReverseOverlay` yields the empty reverse table.
-/
theorem C8_load_soft_fail (fs : FS) (root : String) :
    (fs.read (pjoin (pjoin root ".inco_cache") "overlay.json") = none →
      loadOverlay fs root = none ∧ buildReverseOverlay fs root = [])
    ∧ (∀ raw, fs.read (pjoin (pjoin root ".inco_cache") "overlay.json") = some raw →
      jsonParse raw = none →
      loadOverlay fs root = none ∧ buildReverseOverlay fs root = []) := by
  constructor
  · intro h
    unfold loadOverlay buildReverseOverlay
    rw [h]
    exact ⟨rfl, rfl⟩
  · intro raw h hp
    unfold loadOverlay buildReverseOverlay
    rw [h]
    dsimp only
    rw [hp]
    exact ⟨rfl, rfl⟩

/--
Witness for C8: a snapshot with no artifact at all, and one whose artifact is
not valid JSON, both load as NotFound with an empty reverse table.
-/
theorem C8_load_soft_fail_witness :
    (loadOverlay (FS.mk [] []) "/ws" = none
      ∧ buildReverseOverlay (FS.mk [] []) "/ws" = [])
    ∧ (loadOverlay (FS.mk [("/ws/.inco_cache/overlay.json", "not json")] []) "/ws" = none
      ∧ buildReverseOverlay
          (FS.mk [("/ws/.inco_cache/overlay.json", "not json")] []) "/ws" = []) :=
  ⟨(C8_load_soft_fail (FS.mk [] []) "/ws").1 (by decide),
   (C8_load_soft_fail (FS.mk [("/ws/.inco_cache/overlay.json", "not json")] [])
     "/ws").2 "not json" (by decide) (by rfl)⟩

end Inco
